import Mathlib

/-
  Verification of the generic-template parametrization engine and the
  JSON-schema ref-unpacking helper of this repository.

  The engine itself (type-expression substitution, the generic-types cache,
  the template factory and the declaration-site resolver) is not part of the
  checked-in sources here; only its test-suite is.  It is therefore modelled
  below from the specification (spec.md), with the behavior at the concrete
  points exercised by the tests pinned to what the test-suite asserts.
  The JSON-schema `$ref` helper is embedded directly from
  `pydantic/_internal/_json_schema_shared.py`.

  Python reference identity (`is`) is modelled by Nat identifiers: templates
  and variants live in an append-only store and are compared by index; JSON
  schema dicts live in a heap indexed by Nat and mutation is functional
  update of that heap.  Type expressions are canonical trees, where Python's
  identity short-circuit corresponds to returning an equal tree.
-/

namespace PydGen

abbrev PName := String

/-- Concrete (fully ground) leaf types occurring in field annotations. -/
inductive ConcreteTy where
  | int | float | str | bool
  deriving DecidableEq, Repr

/-- Modelled from the spec: the closed set of composite type-expression
shapes (union, sequence, mapping, tuple, callable signature, type-of,
alias-of), plus the list/tuple shapes a callable's parameter spec uses
(`plist` is Python's non-hashable list, `ptuple` its hashable surrogate). -/
inductive CKind where
  | union | seq | mapping | tup | callable | plist | ptuple | typeOf | aliasOf
  deriving DecidableEq, Repr

/-- Modelled from the spec: a type expression is a tree over `Leaf(concrete)`,
`Param(identifier)` (here `pvar`), `Container(kind, children)` and
`TemplateRef(template, args)` where templates are referenced by their index
in the template store. -/
inductive TypeExpr where
  | leaf : ConcreteTy → TypeExpr
  | pvar : PName → TypeExpr
  | container : CKind → List TypeExpr → TypeExpr
  | templateRef : Nat → List TypeExpr → TypeExpr
  deriving Repr

mutual

def TypeExpr.beq : TypeExpr → TypeExpr → Bool
  | .leaf a, .leaf b => decide (a = b)
  | .pvar a, .pvar b => decide (a = b)
  | .container k xs, .container l ys => decide (k = l) && beqList xs ys
  | .templateRef i xs, .templateRef j ys => decide (i = j) && beqList xs ys
  | _, _ => false

def beqList : List TypeExpr → List TypeExpr → Bool
  | [], [] => true
  | x :: xs, y :: ys => TypeExpr.beq x y && beqList xs ys
  | _, _ => false

end

mutual

theorem TypeExpr.beq_refl : (e : TypeExpr) → TypeExpr.beq e e = true
  | .leaf a => by simp [TypeExpr.beq]
  | .pvar a => by simp [TypeExpr.beq]
  | .container k xs => by simp [TypeExpr.beq, beqList_refl xs]
  | .templateRef i xs => by simp [TypeExpr.beq, beqList_refl xs]

theorem beqList_refl : (l : List TypeExpr) → beqList l l = true
  | [] => by simp [beqList]
  | x :: xs => by simp [beqList, TypeExpr.beq_refl x, beqList_refl xs]

end

mutual

theorem TypeExpr.beq_eq : (a b : TypeExpr) → TypeExpr.beq a b = true → a = b
  | .leaf a, .leaf b => by simp [TypeExpr.beq]
  | .leaf _, .pvar _ => by simp [TypeExpr.beq]
  | .leaf _, .container _ _ => by simp [TypeExpr.beq]
  | .leaf _, .templateRef _ _ => by simp [TypeExpr.beq]
  | .pvar _, .leaf _ => by simp [TypeExpr.beq]
  | .pvar a, .pvar b => by simp [TypeExpr.beq]
  | .pvar _, .container _ _ => by simp [TypeExpr.beq]
  | .pvar _, .templateRef _ _ => by simp [TypeExpr.beq]
  | .container _ _, .leaf _ => by simp [TypeExpr.beq]
  | .container _ _, .pvar _ => by simp [TypeExpr.beq]
  | .container k xs, .container l ys => by
      simp only [TypeExpr.beq, Bool.and_eq_true, decide_eq_true_eq]
      exact fun ⟨h1, h2⟩ => by rw [h1, beqList_eq xs ys h2]
  | .container _ _, .templateRef _ _ => by simp [TypeExpr.beq]
  | .templateRef _ _, .leaf _ => by simp [TypeExpr.beq]
  | .templateRef _ _, .pvar _ => by simp [TypeExpr.beq]
  | .templateRef _ _, .container _ _ => by simp [TypeExpr.beq]
  | .templateRef i xs, .templateRef j ys => by
      simp only [TypeExpr.beq, Bool.and_eq_true, decide_eq_true_eq]
      exact fun ⟨h1, h2⟩ => by rw [h1, beqList_eq xs ys h2]

theorem beqList_eq : (a b : List TypeExpr) → beqList a b = true → a = b
  | [], [] => by simp
  | [], _ :: _ => by simp [beqList]
  | _ :: _, [] => by simp [beqList]
  | x :: xs, y :: ys => by
      simp only [beqList, Bool.and_eq_true]
      exact fun ⟨h1, h2⟩ => by rw [TypeExpr.beq_eq x y h1, beqList_eq xs ys h2]

end

instance : DecidableEq TypeExpr := fun a b =>
  if h : TypeExpr.beq a b = true then .isTrue (TypeExpr.beq_eq a b h)
  else .isFalse (fun he => h (by rw [he]; exact TypeExpr.beq_refl b))

mutual

/-- Modelled from the spec: the Free-Parameter Scanner, the ordered,
possibly-repeating sequence of free parameters occurring in a type
expression, depth-first and left-to-right. -/
def TypeExpr.frees : TypeExpr → List PName
  | .leaf _ => []
  | .pvar p => [p]
  | .container _ cs => freesList cs
  | .templateRef _ cs => freesList cs

def freesList : List TypeExpr → List PName
  | [] => []
  | c :: cs => c.frees ++ freesList cs

end

/-- First-match lookup in a parameter mapping. -/
def lookupM : List (PName × TypeExpr) → PName → Option TypeExpr
  | [], _ => none
  | (k, v) :: rest, p => if k = p then some v else lookupM rest p

mutual

/-- Modelled from the spec: node-by-node substitution under a parameter
mapping.  A `Leaf` passes through, a mapped `Param` becomes its image (so a
parameter mapped to itself yields the original node), children of containers
and template-reference argument lists are substituted recursively, so an
expression none of whose parameters are (properly) mapped comes back
unchanged. -/
def replaceTypesGo (m : List (PName × TypeExpr)) : TypeExpr → TypeExpr
  | .leaf c => .leaf c
  | .pvar p =>
      match lookupM m p with
      | some e => e
      | none => .pvar p
  | .container k cs => .container k (replaceList m cs)
  | .templateRef t cs => .templateRef t (replaceList m cs)

def replaceList (m : List (PName × TypeExpr)) : List TypeExpr → List TypeExpr
  | [] => []
  | c :: cs => replaceTypesGo m c :: replaceList m cs

end

/-- Modelled from the spec: `substitute(expr, mapping)` (the source calls it
`replace_types`) with the documented short-circuit: an empty mapping returns
the expression unchanged at entry. -/
def replaceTypes (m : List (PName × TypeExpr)) (e : TypeExpr) : TypeExpr :=
  if m.isEmpty then e else replaceTypesGo m e

mutual

/-- Modelled from the spec: the deterministic conversion of a structurally
non-hashable leaf (a list-shaped callable parameter spec) into a hashable
surrogate (an immutable ordered sequence) for cache-key purposes. -/
def canonExpr : TypeExpr → TypeExpr
  | .leaf c => .leaf c
  | .pvar p => .pvar p
  | .container k cs => .container (if k = .plist then .ptuple else k) (canonList cs)
  | .templateRef t cs => .templateRef t (canonList cs)

def canonList : List TypeExpr → List TypeExpr
  | [] => []
  | c :: cs => canonExpr c :: canonList cs

end

mutual

/-- A type expression is hashable unless a Python list (`plist`) occurs
somewhere inside it. -/
def hashableExpr : TypeExpr → Bool
  | .leaf _ => true
  | .pvar _ => true
  | .container k cs => if k = .plist then false else hashableList cs
  | .templateRef _ cs => hashableList cs

def hashableList : List TypeExpr → Bool
  | [] => true
  | c :: cs => hashableExpr c && hashableList cs

end

def dedupAux (seen : List PName) : List PName → List PName
  | [] => []
  | x :: xs => if x ∈ seen then dedupAux seen xs else x :: dedupAux (x :: seen) xs

/-- Order-preserving deduplication keeping the first occurrence of each
name. -/
def dedupF (l : List PName) : List PName := dedupAux [] l

/-- Concatenated free-parameter occurrences of a field list, in field order. -/
def fieldsFrees : List (String × TypeExpr) → List PName
  | [] => []
  | f :: fs => f.2.frees ++ fieldsFrees fs

def renderConcrete : ConcreteTy → String
  | .int => "int"
  | .float => "float"
  | .str => "str"
  | .bool => "bool"

def renderKind : CKind → String
  | .union => "Union"
  | .seq => "List"
  | .mapping => "Dict"
  | .tup => "Tuple"
  | .callable => "Callable"
  | .plist => "ParamList"
  | .ptuple => "ParamTuple"
  | .typeOf => "Type"
  | .aliasOf => "Alias"

mutual

/-- Rendering of an argument for the default display name of a variant: a
concrete type by its name, a still-free parameter with a tilde. -/
def renderExpr : TypeExpr → String
  | .leaf c => renderConcrete c
  | .pvar p => "~" ++ p
  | .container k cs => renderKind k ++ "[" ++ renderArgs cs ++ "]"
  | .templateRef t cs => "Template" ++ toString t ++ "[" ++ renderArgs cs ++ "]"

def renderArgs : List TypeExpr → String
  | [] => ""
  | [c] => renderExpr c
  | c :: cs => renderExpr c ++ ", " ++ renderArgs cs

end

/-- Modelled from the spec: the default display name, the template's own name
suffixed with a bracketed, comma-joined rendering of the arguments. -/
def displayName (base : String) (args : List TypeExpr) : String :=
  base ++ "[" ++ renderArgs args ++ "]"

/-- Modelled from the spec: a declared template or synthesized variant: its
display name, its ordered declared-parameter list, its (inheritance-resolved)
fields, and — for factory-built variants — the originating template and the
resolved argument tuple. -/
structure Template where
  name : String
  tparams : List PName
  fields : List (String × TypeExpr)
  origin : Option (Nat × List TypeExpr)
  deriving DecidableEq, Repr

def substField (m : List (PName × TypeExpr)) (f : String × TypeExpr) : String × TypeExpr :=
  (f.1, replaceTypes m f.2)

/-- Fields contributed by a list of bases, each base's fields substituted
under the binding of that base's parameters to its argument list. -/
def inheritedFields : List (Template × List TypeExpr) → List (String × TypeExpr)
  | [] => []
  | (b, bargs) :: rest =>
      b.fields.map (substField (List.zip b.tparams bargs)) ++ inheritedFields rest

def dedupFieldsAux (seen : List String) : List (String × TypeExpr) → List (String × TypeExpr)
  | [] => []
  | f :: fs =>
      if f.1 ∈ seen then dedupFieldsAux seen fs
      else f :: dedupFieldsAux (f.1 :: seen) fs

/-- Per-name deduplication keeping the first (most derived) occurrence,
matching method-resolution-order override semantics. -/
def dedupFields (fs : List (String × TypeExpr)) : List (String × TypeExpr) :=
  dedupFieldsAux [] fs

/-- Modelled from the spec: the effective field list of a declared template,
its own fields first, then every field inherited from every base in
method-resolution order with the base's parameters bound to the base's
argument list, a more-derived occurrence of a name winning. -/
def effFields (own : List (String × TypeExpr)) (bases : List (Template × List TypeExpr)) :
    List (String × TypeExpr) :=
  dedupFields (own ++ inheritedFields bases)

/-- The kind of a generic-types cache key: every successful creation inserts
the variant under both an `early` key and an equivalent canonical `late`
key. -/
inductive KeyKind where
  | early | late
  deriving DecidableEq, Repr

/-- Modelled from the spec: the canonical cache key, the identity of the
template together with the canonicalized (hashable-surrogate) argument
tuple. -/
structure CacheKey where
  kind : KeyKind
  tid : Nat
  args : List TypeExpr
  deriving DecidableEq, Repr

/-- The engine's error taxonomy, from the spec together with the two
declaration-site resolver failures. -/
inductive GErr where
  | notGeneric
  | parameterArity (name : String) (expected : Nat) (actual : Nat)
  | unknownTemplate
  | unhashableKey
  | usageError
  | frameIntrospection
  deriving DecidableEq, Repr

/-- Modelled from the spec: the whole engine state, the append-only store of
templates (a template's identity is its index) and the generic-types cache. -/
structure GState where
  templates : List Template
  cache : List (CacheKey × Nat)
  deriving DecidableEq, Repr

def lookupCache : List (CacheKey × Nat) → CacheKey → Option Nat
  | [], _ => none
  | (k, v) :: rest, key => if k = key then some v else lookupCache rest key

/-- Every cache entry points at a stored, factory-built variant (a template
carrying an origin).  This is the cache's structural invariant. -/
def cacheWF (s : GState) : Bool :=
  s.cache.all (fun p =>
    match s.templates[p.2]? with
    | some t => t.origin.isSome
    | none => false)

/-- Modelled from the spec: the variant the Template Factory builds for a
template and an argument tuple — every effective field substituted under the
declared-parameters-to-arguments mapping, the declared-parameter list of the
result recomputed as the deduplicated free parameters of the substituted
fields, the default display name, and the recorded origin. -/
def mkVariant (M : Template) (mid : Nat) (args : List TypeExpr) : Template :=
  let m := List.zip M.tparams args
  let fields2 := M.fields.map (substField m)
  { name := displayName M.name args
    tparams := dedupF (fieldsFrees fields2)
    fields := fields2
    origin := some (mid, args) }

/-- Modelled from the spec: `get_or_create(template, args)` over the
generic-types cache.  The key is built from the canonicalized arguments (a
non-hashable key is rejected, which canonicalization provably prevents); a
present key returns the existing variant with the state untouched; otherwise
the factory's variant is appended to the store and registered under both the
`early` key and the equivalent canonical `late` key, so one creation adds two
cache entries. -/
def getOrCreate (s : GState) (M : Template) (mid : Nat) (args : List TypeExpr) :
    Except GErr (Nat × GState) :=
  let cargs := canonList args
  if cargs.all hashableExpr then
    match lookupCache s.cache ⟨.early, mid, cargs⟩ with
    | some vid => .ok (vid, s)
    | none =>
        .ok (s.templates.length,
          { templates := s.templates ++ [mkVariant M mid args]
            cache := (⟨.early, mid, cargs⟩, s.templates.length)
              :: (⟨.late, mid, cargs⟩, s.templates.length) :: s.cache })
  else .error .unhashableKey

/-- Modelled from the spec: `parametrize(template, args)`.  The template must
exist and be generic; more arguments than declared parameters fail with the
arity error carrying the display name and the expected/actual counts; binding
every declared parameter to itself is a no-op returning the template itself;
otherwise the request is resolved through the cache, re-targeted at the
originating template (with the origin's argument tuple substituted) when the
template is itself a factory-built variant. -/
def parametrize (s : GState) (mid : Nat) (args : List TypeExpr) :
    Except GErr (Nat × GState) :=
  match s.templates[mid]? with
  | none => .error .unknownTemplate
  | some M =>
    if M.tparams.isEmpty then .error .notGeneric
    else if M.tparams.length < args.length then
      .error (.parameterArity M.name M.tparams.length args.length)
    else if args = M.tparams.map TypeExpr.pvar then .ok (mid, s)
    else
      match M.origin with
      | none => getOrCreate s M mid args
      | some (oid, oargs) =>
        match s.templates[oid]? with
        | none => .error .unknownTemplate
        | some O =>
            getOrCreate s O oid (oargs.map (replaceTypes (List.zip M.tparams args)))

/-- Sequential re-parametrization of a previous parametrization result. -/
def reparam (x : Except GErr (Nat × GState)) (args : List TypeExpr) :
    Except GErr (Nat × GState) :=
  match x with
  | .error e => .error e
  | .ok (vid, s) => parametrize s vid args

def lookupField : List (String × TypeExpr) → String → Option TypeExpr
  | [], _ => none
  | f :: fs, n => if f.1 = n then some f.2 else lookupField fs n

/-- The annotation of a named field of a stored template. -/
def fieldAnn (s : GState) (vid : Nat) (fname : String) : Option TypeExpr :=
  match s.templates[vid]? with
  | none => none
  | some t => lookupField t.fields fname

/-- The observable outcomes of inspecting the call stack at the point of a
parametrization: the host has no introspection mechanism at all
(`sys._getframe` absent), the mechanism exists but there is no enclosing
function frame, or an enclosing frame with its module attribution and
whether the call sits directly at module scope. -/
inductive FrameState where
  | noIntrospection
  | noEnclosingFrame
  | frame (moduleName : Option String) (isModuleScope : Bool)
  deriving DecidableEq, Repr

/-- Modelled from the spec: the declaration-site resolver
(`_get_caller_frame_info` in the source), with its behavior at the points the
test-suite pins: deleting `sys._getframe` makes it return `(None, False)`
(the degraded no-op mode of the design notes), while an absent enclosing
frame fails with the usage error ("This function must be used inside another
function"); otherwise it reports the caller's module and whether the call is
at module scope. -/
def get_caller_frame_info : FrameState → Except GErr (Option String × Bool)
  | .noIntrospection => .ok (none, false)
  | .noEnclosingFrame => .error .usageError
  | .frame n sc => .ok (n, sc)

end PydGen

namespace PydSchema

/-- The content of a JSON-schema dict, an ordered key-value association. -/
abbrev JObj := List (String × String)

/-- A heap of JSON-schema dict objects: Python object identity is a `Nat`
id, in-place mutation is functional update of the heap at that id. -/
abbrev Heap := Nat → JObj

/-- Embedded from `UnpackedRefJsonSchemaHandler.update_schema`: when the
handler was never called the schema passes through; otherwise the recorded
original is resolved, and exactly when the original was an indirection
(resolving it yields a different object) and the wrapped function returned a
schema distinct from that resolved object, the resolved object's content is
cleared and overwritten in place with the returned schema's content; the
result is always the recorded (possibly `$ref`) original. -/
def update_schema (resolve : Nat → Nat) (heap : Heap) (originalSchema : Option Nat)
    (schema : Nat) : Nat × Heap :=
  match originalSchema with
  | none => (schema, heap)
  | some orig =>
    if resolve orig ≠ orig ∧ schema ≠ resolve orig then
      (orig, Function.update heap (resolve orig) (heap schema))
    else (orig, heap)

/-- Embedded from
`wrap_json_schema_fn_for_model_or_custom_type_with_ref_unpacking`,
specialized to a generation function that invokes its handler once on its
input: the wrapped handler records the inner handler's result and hands the
generation function its resolved form; the function's returned schema is then
written back through `update_schema`. -/
def wrappedFn (resolve : Nat → Nat) (innerResult : Nat) (fn : Nat → Heap → Nat × Heap)
    (heap : Heap) : Nat × Heap :=
  let seen := resolve innerResult
  let r := fn seen heap
  update_schema resolve r.2 (some innerResult) r.1

end PydSchema

namespace PydGen

theorem lookupCache_head (rest : List (CacheKey × Nat)) (k : CacheKey) (v : Nat) :
    lookupCache ((k, v) :: rest) k = some v := by
  simp [lookupCache]

theorem lookupCache_mem : (c : List (CacheKey × Nat)) → (k : CacheKey) → (v : Nat) →
    lookupCache c k = some v → (k, v) ∈ c
  | [], _, _, h => by simp [lookupCache] at h
  | (k0, v0) :: rest, k, v, h => by
      by_cases he : k0 = k
      · subst he
        rw [lookupCache, if_pos rfl] at h
        injection h with h
        subst h
        exact List.mem_cons_self _ _
      · rw [lookupCache, if_neg he] at h
        exact List.mem_cons_of_mem _ (lookupCache_mem rest k v h)

theorem getOrCreate_stable (s : GState) (M : Template) (mid : Nat) (args : List TypeExpr)
    (v : Nat) (s1 : GState) (h : getOrCreate s M mid args = .ok (v, s1)) :
    (∀ i, i < s.templates.length → s1.templates[i]? = s.templates[i]?) ∧
    getOrCreate s1 M mid args = .ok (v, s1) := by
  unfold getOrCreate at h ⊢
  by_cases hh : (canonList args).all hashableExpr
  · rw [if_pos hh] at h
    rw [if_pos hh]
    cases hl : lookupCache s.cache ⟨.early, mid, canonList args⟩ with
    | some vid =>
        rw [hl] at h
        simp only [Except.ok.injEq, Prod.mk.injEq] at h
        obtain ⟨hv, hs⟩ := h
        subst hv
        subst hs
        rw [hl]
        exact ⟨fun i _ => rfl, rfl⟩
    | none =>
        rw [hl] at h
        simp only [Except.ok.injEq, Prod.mk.injEq] at h
        obtain ⟨hv, hs⟩ := h
        subst hv
        subst hs
        refine ⟨fun i hi => List.getElem?_append_left hi, ?_⟩
        rw [lookupCache_head]
  · rw [if_neg hh] at h
    simp at h

/-- Claim C1.  Identity memoization: a successful parametrization, re-run on
the resulting state with the same template and argument tuple, returns the
identical variant and leaves the state — in particular the generic-types
cache — exactly as it was: the second call is a pure cache hit (or identity
no-op) and adds no entries. -/
theorem parametrize_memoized (s : GState) (mid : Nat) (args : List TypeExpr)
    (v : Nat) (s1 : GState) (h : parametrize s mid args = .ok (v, s1)) :
    parametrize s1 mid args = .ok (v, s1) := by
  cases hM : s.templates[mid]? with
  | none => simp only [parametrize, hM] at h; simp at h
  | some M =>
    simp only [parametrize, hM] at h
    have hmid : mid < s.templates.length := (List.getElem?_eq_some.mp hM).1
    by_cases hg : M.tparams.isEmpty = true
    · rw [if_pos hg] at h; simp at h
    · rw [if_neg hg] at h
      by_cases ha : M.tparams.length < args.length
      · rw [if_pos ha] at h; simp at h
      · rw [if_neg ha] at h
        by_cases hcol : args = M.tparams.map TypeExpr.pvar
        · rw [if_pos hcol] at h
          simp only [Except.ok.injEq, Prod.mk.injEq] at h
          obtain ⟨hv, hs⟩ := h
          subst hv
          subst hs
          simp only [parametrize, hM]
          rw [if_neg hg, if_neg ha, if_pos hcol]
        · rw [if_neg hcol] at h
          cases ho : M.origin with
          | none =>
            simp only [ho] at h
            obtain ⟨hpres, hre⟩ := getOrCreate_stable s M mid args v s1 h
            simp only [parametrize, hpres mid hmid, hM, ho]
            rw [if_neg hg, if_neg ha, if_neg hcol]
            exact hre
          | some pr =>
            obtain ⟨oid, oargs⟩ := pr
            simp only [ho] at h
            cases hO : s.templates[oid]? with
            | none => simp only [hO] at h; simp at h
            | some O =>
              simp only [hO] at h
              have hoid : oid < s.templates.length := (List.getElem?_eq_some.mp hO).1
              obtain ⟨hpres, hre⟩ := getOrCreate_stable s O oid
                (oargs.map (replaceTypes (List.zip M.tparams args))) v s1 h
              simp only [parametrize, hpres mid hmid, hM, ho, hpres oid hoid, hO]
              rw [if_neg hg, if_neg ha, if_neg hcol]
              exact hre

/-- A one-parameter generic template over `T` with one field, and the state
holding only it: the scenario of the caching and identity tests. -/
def modelT : Template := ⟨"Model", ["T"], [("x", .pvar "T")], none⟩

def stateT : GState := ⟨[modelT], []⟩

/-- The state after `Model[int]` on `stateT`: the concrete variant is stored
and registered under both cache keys. -/
def stateTInt : GState :=
  ⟨[modelT, ⟨"Model[int]", [], [("x", .leaf .int)], some (0, [.leaf .int])⟩],
   [(⟨.early, 0, [.leaf .int]⟩, 1), (⟨.late, 0, [.leaf .int]⟩, 1)]⟩

/-- Witness for C1: on the concrete one-parameter template, `Model[int]`
creates variant 1 and a second `Model[int]` returns the identical variant
with the state (hence cache) unchanged. -/
theorem parametrize_memoized_witness :
    parametrize stateT 0 [.leaf .int] = .ok (1, stateTInt) ∧
    parametrize stateTInt 0 [.leaf .int] = .ok (1, stateTInt) :=
  ⟨rfl, parametrize_memoized stateT 0 [.leaf .int] 1 stateTInt rfl⟩

/-- Claim C6.  Parametrizing a template declared over 2 parameters with 3
arguments fails with the parameter-arity error reporting expected=2,
actual=3 and carrying the template's display name. -/
theorem parametrize_arity_error (s : GState) (mid : Nat) (M : Template)
    (args : List TypeExpr) (hM : s.templates[mid]? = some M)
    (hp : M.tparams.length = 2) (ha : args.length = 3) :
    parametrize s mid args = .error (.parameterArity M.name 2 3) := by
  have hg : M.tparams.isEmpty = false := by
    cases hl : M.tparams with
    | nil => rw [hl] at hp; simp at hp
    | cons x xs => rfl
  simp only [parametrize, hM]
  rw [if_neg (by simp [hg]), hp, ha, if_pos (by norm_num)]

/-- Witness for C6: a concrete two-parameter template applied to three
arguments reports actual 3, expected 2. -/
theorem parametrize_arity_error_witness :
    parametrize ⟨[⟨"Model", ["T", "S"], [("x", .pvar "T"), ("y", .pvar "S")], none⟩], []⟩
        0 [.leaf .int, .leaf .int, .leaf .int]
      = .error (.parameterArity "Model" 2 3) :=
  parametrize_arity_error
    ⟨[⟨"Model", ["T", "S"], [("x", .pvar "T"), ("y", .pvar "S")], none⟩], []⟩
    0 ⟨"Model", ["T", "S"], [("x", .pvar "T"), ("y", .pvar "S")], none⟩
    [.leaf .int, .leaf .int, .leaf .int] rfl rfl rfl

end PydGen

namespace PydGen

/-- Claim C2.  Identity collapse: binding a template's single declared
parameter to itself is a no-op returning the template itself, so three
nested such parametrizations still return the template itself, while binding
it to a different type variable returns a variant that is not the template. -/
theorem parametrize_identity_collapse (s : GState) (mid : Nat) (M : Template)
    (t t2 : PName) (hM : s.templates[mid]? = some M) (hp : M.tparams = [t])
    (ho : M.origin = none) (hwf : cacheWF s = true) (hne : t2 ≠ t) :
    parametrize s mid [.pvar t] = .ok (mid, s)
    ∧ reparam (reparam (parametrize s mid [.pvar t]) [.pvar t]) [.pvar t] = .ok (mid, s)
    ∧ ∃ r s2, parametrize s mid [.pvar t2] = .ok (r, s2) ∧ r ≠ mid := by
  have hstep : parametrize s mid [.pvar t] = .ok (mid, s) := by
    simp only [parametrize, hM, hp]
    rw [if_neg (by simp), if_neg (by simp), if_pos (by simp)]
  refine ⟨hstep, ?_, ?_⟩
  · rw [hstep]
    simp only [reparam]
    rw [hstep]
    simp only [reparam]
    rw [hstep]
  · simp only [parametrize, hM, hp, ho]
    rw [if_neg (by simp), if_neg (by simp), if_neg (by simp [hne])]
    simp only [getOrCreate]
    rw [if_pos (by simp [canonList, canonExpr, hashableList, hashableExpr])]
    cases hl : lookupCache s.cache ⟨.early, mid, canonList [.pvar t2]⟩ with
    | some vid =>
        simp only [hl]
        refine ⟨vid, s, rfl, ?_⟩
        have hall := List.all_eq_true.mp hwf _ (lookupCache_mem _ _ _ hl)
        intro hvm
        subst hvm
        simp only [hM, ho] at hall
        simp at hall
    | none =>
        simp only [hl]
        refine ⟨s.templates.length, _, rfl, ?_⟩
        intro hcontra
        exact absurd (hcontra ▸ (List.getElem?_eq_some.mp hM).1) (lt_irrefl _)

/-- Witness for C2: on the concrete one-parameter template over `T`,
`Model[T][T][T]` is `Model` and `Model[T2]` is not `Model`. -/
theorem parametrize_identity_collapse_witness :
    parametrize stateT 0 [.pvar "T"] = .ok (0, stateT)
    ∧ reparam (reparam (parametrize stateT 0 [.pvar "T"]) [.pvar "T"]) [.pvar "T"]
        = .ok (0, stateT)
    ∧ ∃ r s2, parametrize stateT 0 [.pvar "T2"] = .ok (r, s2) ∧ r ≠ 0 :=
  parametrize_identity_collapse stateT 0 modelT "T" "T2" rfl rfl rfl rfl (by decide)

/-- The templates of the multi-level multiple-inheritance scenario:
`OuterModelA(K, V)` with `data : Dict[K, V]`, `OuterModelB(T)` with
`stuff : List[T]`, and `InnerModel(K, V, T)` inheriting `OuterModelA[K, V]`
and `OuterModelB[T]` with its own field `extra : int`. -/
def tyOuterA : Template :=
  ⟨"OuterModelA", ["K", "V"], [("data", .container .mapping [.pvar "K", .pvar "V"])], none⟩

def tyOuterB : Template :=
  ⟨"OuterModelB", ["T"], [("stuff", .container .seq [.pvar "T"])], none⟩

def tyInner : Template :=
  ⟨"InnerModel", ["K", "V", "T"],
    effFields [("extra", .leaf .int)]
      [(tyOuterA, [.pvar "K", .pvar "V"]), (tyOuterB, [.pvar "T"])], none⟩

def stateInner : GState := ⟨[tyOuterA, tyOuterB, tyInner], []⟩

/-- Claim C5.  Multi-level inheritance propagation: parametrizing
`InnerModel` with `(int, float, str)` yields a variant whose `data` field is
`Dict[int, float]`, whose `stuff` field is `List[str]`, and whose `extra`
field is `int`. -/
theorem deep_generic_multiple_inheritance :
    (parametrize stateInner 2 [.leaf .int, .leaf .float, .leaf .str]).map
        (fun r => (fieldAnn r.2 r.1 "data", fieldAnn r.2 r.1 "stuff", fieldAnn r.2 r.1 "extra"))
      = .ok (some (.container .mapping [.leaf .int, .leaf .float]),
             some (.container .seq [.leaf .str]),
             some (.leaf .int)) := rfl

/-- The one-parameter generic model and the callable argument whose
parameter spec is a (non-hashable) list, from the cache-keys test. -/
def tyGen : Template := ⟨"MyGenericModel", ["T"], [("t", .pvar "T")], none⟩

def stateGen : GState := ⟨[tyGen], []⟩

def argCallable : TypeExpr :=
  .container .callable [.container .plist [.leaf .int], .leaf .str]

/-- The state after the first `MyGenericModel[Callable[[int], str]]`: the
variant is stored once but registered under two cache entries whose keys
carry the hashable (`ptuple`) surrogate of the list-shaped parameter spec. -/
def stateGenAfter : GState :=
  ⟨[tyGen,
    ⟨"MyGenericModel[Callable[ParamList[int], str]]", [],
      [("t", argCallable)], some (0, [argCallable])⟩],
   [(⟨.early, 0, [.container .callable [.container .ptuple [.leaf .int], .leaf .str]]⟩, 1),
    (⟨.late, 0, [.container .callable [.container .ptuple [.leaf .int], .leaf .str]]⟩, 1)]⟩

/-- Claim C7.  Unhashable-argument tolerance: the callable argument is
itself non-hashable, yet parametrizing with it succeeds (no error), the
single successful creation adds exactly two cache entries (the key and its
canonical twin), both naming the same variant, whose keys are hashable, and
a structurally identical second parametrization is a cache hit returning the
identical variant and adding nothing. -/
theorem unhashable_argument_tolerance :
    hashableExpr argCallable = false
    ∧ parametrize stateGen 0 [argCallable] = .ok (1, stateGenAfter)
    ∧ stateGenAfter.cache.length = 2
    ∧ stateGenAfter.cache.map Prod.snd = [1, 1]
    ∧ (stateGenAfter.cache.map (fun p => hashableList p.1.args)) = [true, true]
    ∧ parametrize stateGenAfter 0 [argCallable] = .ok (1, stateGenAfter) :=
  ⟨rfl, rfl, rfl, rfl, rfl, rfl⟩

end PydGen

namespace PydGen

/-- A mapping changes nothing at the parameter `p`: either `p` is unmapped or
it is mapped to itself. -/
def selfOrAbsent (m : List (PName × TypeExpr)) (p : PName) : Bool :=
  match lookupM m p with
  | none => true
  | some e => decide (e = .pvar p)

mutual

theorem replaceTypesGo_identity (m : List (PName × TypeExpr)) :
    (e : TypeExpr) → (TypeExpr.frees e).all (selfOrAbsent m) = true →
      replaceTypesGo m e = e
  | .leaf c, _ => rfl
  | .pvar p, h => by
      cases hl : lookupM m p with
      | none => simp [replaceTypesGo, hl]
      | some e =>
          simp only [TypeExpr.frees, List.all_cons, List.all_nil, Bool.and_true,
            selfOrAbsent, hl, decide_eq_true_eq] at h
          simp [replaceTypesGo, hl, h]
  | .container k cs, h => by
      simp only [TypeExpr.frees] at h
      simp only [replaceTypesGo, replaceList_identity m cs h]
  | .templateRef t cs, h => by
      simp only [TypeExpr.frees] at h
      simp only [replaceTypesGo, replaceList_identity m cs h]

theorem replaceList_identity (m : List (PName × TypeExpr)) :
    (cs : List TypeExpr) → (freesList cs).all (selfOrAbsent m) = true →
      replaceList m cs = cs
  | [], _ => rfl
  | c :: cs, h => by
      simp only [freesList, List.all_append, Bool.and_eq_true] at h
      simp only [replaceList, replaceTypesGo_identity m c h.1,
        replaceList_identity m cs h.2]

end

/-- Claim C3.  Identity preservation of substitution: whenever the mapping
changes no subterm of the expression — every free parameter occurring in it
is either unmapped or mapped to itself, which in particular covers the empty
mapping and mappings binding only parameters that do not occur — the result
of `replaceTypes` is the expression itself, not a rebuilt copy. -/
theorem replace_types_identity (m : List (PName × TypeExpr)) (e : TypeExpr)
    (h : (TypeExpr.frees e).all (selfOrAbsent m) = true) :
    replaceTypes m e = e := by
  unfold replaceTypes
  split
  · rfl
  · exact replaceTypesGo_identity m e h

/-- The unchanged expression of the identity test: a sequence of a union of
`str`, a callable whose parameter spec is a (list-shaped) leaf, and the free
parameter `U`, substituted under a mapping binding only the absent `T`. -/
def exprUnchanged : TypeExpr :=
  .container .seq [.container .union
    [.leaf .str,
     .container .callable [.container .plist [.leaf .bool], .leaf .str],
     .pvar "U"]]

/-- Witness for C3: the mapping binds only `T`, which does not occur in the
expression, and substitution returns the expression itself. -/
theorem replace_types_identity_witness :
    (TypeExpr.frees exprUnchanged).all (selfOrAbsent [("T", .leaf .int)]) = true
    ∧ replaceTypes [("T", .leaf .int)] exprUnchanged = exprUnchanged :=
  ⟨rfl, replace_types_identity [("T", .leaf .int)] exprUnchanged rfl⟩

/-- A mapping erases exactly the parameters `keep` rejects: a kept parameter
is unmapped or mapped to itself, a dropped parameter is mapped to an
expression with no free parameters. -/
def ErasesTo (m : List (PName × TypeExpr)) (keep : PName → Bool) : Prop :=
  ∀ q : PName,
    (keep q = true → lookupM m q = none ∨ lookupM m q = some (.pvar q))
    ∧ (keep q = false → ∃ e, lookupM m q = some e ∧ TypeExpr.frees e = [])

mutual

theorem frees_replaceGo (m : List (PName × TypeExpr)) (keep : PName → Bool)
    (hm : ErasesTo m keep) :
    (e : TypeExpr) →
      TypeExpr.frees (replaceTypesGo m e) = (TypeExpr.frees e).filter keep
  | .leaf c => rfl
  | .pvar q => by
      cases hk : keep q with
      | false =>
          obtain ⟨e, hl, hf⟩ := (hm q).2 hk
          simp [replaceTypesGo, hl, hf, TypeExpr.frees, hk]
      | true =>
          rcases (hm q).1 hk with hl | hl
          · simp [replaceTypesGo, hl, TypeExpr.frees, hk]
          · simp [replaceTypesGo, hl, TypeExpr.frees, hk]
  | .container k cs => by
      simp only [replaceTypesGo, TypeExpr.frees]
      exact freesList_replaceList m keep hm cs
  | .templateRef t cs => by
      simp only [replaceTypesGo, TypeExpr.frees]
      exact freesList_replaceList m keep hm cs

theorem freesList_replaceList (m : List (PName × TypeExpr)) (keep : PName → Bool)
    (hm : ErasesTo m keep) :
    (cs : List TypeExpr) →
      freesList (replaceList m cs) = (freesList cs).filter keep
  | [] => rfl
  | c :: cs => by
      simp only [replaceList, freesList, List.filter_append]
      rw [frees_replaceGo m keep hm c, freesList_replaceList m keep hm cs]

end

theorem replaceTypes_cons (k : PName) (v : TypeExpr) (m : List (PName × TypeExpr))
    (e : TypeExpr) : replaceTypes ((k, v) :: m) e = replaceTypesGo ((k, v) :: m) e := rfl

theorem fieldsFrees_map_subst (k : PName) (v : TypeExpr) (m : List (PName × TypeExpr))
    (keep : PName → Bool) (hm : ErasesTo ((k, v) :: m) keep) :
    (fs : List (String × TypeExpr)) →
      fieldsFrees (fs.map (substField ((k, v) :: m))) = (fieldsFrees fs).filter keep
  | [] => rfl
  | f :: fs => by
      simp only [List.map_cons, fieldsFrees, List.filter_append, substField,
        replaceTypes_cons]
      rw [frees_replaceGo _ keep hm f.2, fieldsFrees_map_subst k v m keep hm fs]

theorem dedupAux_congr : (l : List PName) → (seen seen2 : List PName) →
    (∀ a, a ∈ l → (a ∈ seen ↔ a ∈ seen2)) → dedupAux seen l = dedupAux seen2 l
  | [], _, _, _ => rfl
  | y :: ys, seen, seen2, h => by
      have hy := h y (List.mem_cons_self _ _)
      by_cases hm : y ∈ seen
      · rw [dedupAux, if_pos hm, dedupAux, if_pos (hy.mp hm)]
        exact dedupAux_congr ys seen seen2 (fun a ha => h a (List.mem_cons_of_mem _ ha))
      · rw [dedupAux, if_neg hm, dedupAux, if_neg (fun hc => hm (hy.mpr hc))]
        refine congrArg (y :: ·) (dedupAux_congr ys (y :: seen) (y :: seen2) ?_)
        intro a ha
        simp only [List.mem_cons]
        exact or_congr Iff.rfl (h a (List.mem_cons_of_mem _ ha))

theorem dedupAux_filter (p : PName → Bool) :
    (l : List PName) → (seen : List PName) →
      dedupAux seen (l.filter p) = (dedupAux seen l).filter p
  | [], _ => rfl
  | x :: xs, seen => by
      by_cases hp : p x = true
      · rw [List.filter_cons_of_pos hp]
        by_cases hx : x ∈ seen
        · rw [dedupAux, if_pos hx, dedupAux, if_pos hx, dedupAux_filter p xs seen]
        · rw [dedupAux, if_neg hx, dedupAux, if_neg hx,
            List.filter_cons_of_pos hp, dedupAux_filter p xs (x :: seen)]
      · have hp2 : p x = false := by simpa using hp
        rw [List.filter_cons_of_neg (by simp [hp2])]
        by_cases hx : x ∈ seen
        · rw [dedupAux, if_pos hx, dedupAux_filter p xs seen]
        · rw [dedupAux, if_neg hx, List.filter_cons_of_neg (by simp [hp2]),
            ← dedupAux_filter p xs (x :: seen)]
          refine (dedupAux_congr (xs.filter p) (x :: seen) seen ?_).symm
          intro a ha
          have hax : a ≠ x := by
            intro he
            subst he
            have := (List.mem_filter.mp ha).2
            rw [hp2] at this
            exact Bool.false_ne_true this
          simp [List.mem_cons, hax]

theorem dedupF_filter (p : PName → Bool) (l : List PName) :
    dedupF (l.filter p) = (dedupF l).filter p :=
  dedupAux_filter p l []

end PydGen

namespace PydGen

theorem getElem?_append_len {α : Type} (l : List α) (a : α) :
    (l ++ [a])[l.length]? = some a := by
  simp

theorem parametrize_creation (s : GState) (mid : Nat) (M : Template)
    (args cargs : List TypeExpr)
    (hM : s.templates[mid]? = some M) (hg : M.tparams.isEmpty = false)
    (ha : ¬ M.tparams.length < args.length) (hcol : args ≠ M.tparams.map TypeExpr.pvar)
    (ho : M.origin = none) (hc : canonList args = cargs)
    (hh : cargs.all hashableExpr = true)
    (hl : lookupCache s.cache ⟨.early, mid, cargs⟩ = none) :
    parametrize s mid args = .ok (s.templates.length,
      ⟨s.templates ++ [mkVariant M mid args],
       (⟨.early, mid, cargs⟩, s.templates.length)
         :: (⟨.late, mid, cargs⟩, s.templates.length) :: s.cache⟩) := by
  subst hc
  simp only [parametrize, hM, ho]
  rw [if_neg (by simp [hg]), if_neg ha, if_neg hcol]
  simp only [getOrCreate]
  rw [if_pos hh]
  simp only [hl]

theorem parametrize_cache_hit (s : GState) (mid : Nat) (M : Template)
    (args cargs : List TypeExpr) (vid : Nat)
    (hM : s.templates[mid]? = some M) (hg : M.tparams.isEmpty = false)
    (ha : ¬ M.tparams.length < args.length) (hcol : args ≠ M.tparams.map TypeExpr.pvar)
    (ho : M.origin = none) (hc : canonList args = cargs)
    (hh : cargs.all hashableExpr = true)
    (hl : lookupCache s.cache ⟨.early, mid, cargs⟩ = some vid) :
    parametrize s mid args = .ok (vid, s) := by
  subst hc
  simp only [parametrize, hM, ho]
  rw [if_neg (by simp [hg]), if_neg ha, if_neg hcol]
  simp only [getOrCreate]
  rw [if_pos hh]
  simp only [hl]

theorem parametrize_origin_creation (s : GState) (mid : Nat) (M : Template)
    (args : List TypeExpr) (oid : Nat) (oargs : List TypeExpr) (O : Template)
    (fargs cargs : List TypeExpr)
    (hM : s.templates[mid]? = some M) (hg : M.tparams.isEmpty = false)
    (ha : ¬ M.tparams.length < args.length) (hcol : args ≠ M.tparams.map TypeExpr.pvar)
    (ho : M.origin = some (oid, oargs)) (hO : s.templates[oid]? = some O)
    (hf : oargs.map (replaceTypes (List.zip M.tparams args)) = fargs)
    (hc : canonList fargs = cargs)
    (hh : cargs.all hashableExpr = true)
    (hl : lookupCache s.cache ⟨.early, oid, cargs⟩ = none) :
    parametrize s mid args = .ok (s.templates.length,
      ⟨s.templates ++ [mkVariant O oid fargs],
       (⟨.early, oid, cargs⟩, s.templates.length)
         :: (⟨.late, oid, cargs⟩, s.templates.length) :: s.cache⟩) := by
  subst hf
  subst hc
  simp only [parametrize, hM, ho, hO]
  rw [if_neg (by simp [hg]), if_neg ha, if_neg hcol]
  simp only [getOrCreate]
  rw [if_pos hh]
  simp only [hl]

theorem erasesTo_first (pa pb : PName) (v : TypeExpr) (hv : TypeExpr.frees v = []) :
    ErasesTo [(pa, v), (pb, .pvar pb)] (fun q => !decide (q = pa)) := by
  intro q
  by_cases hqa : q = pa
  · subst hqa
    refine ⟨fun hk => by simp at hk, fun _ => ⟨v, by simp [lookupM], hv⟩⟩
  · constructor
    · intro _
      by_cases hqb : q = pb
      · subst hqb
        right
        simp [lookupM, (Ne.symm hqa : pa ≠ q)]
      · left
        simp [lookupM, (Ne.symm hqa : pa ≠ q), (Ne.symm hqb : pb ≠ q)]
    · intro hk
      simp [hqa] at hk

theorem erasesTo_both (pa pb : PName) (v1 v2 : TypeExpr)
    (h1 : TypeExpr.frees v1 = []) (h2 : TypeExpr.frees v2 = []) :
    ErasesTo [(pa, v1), (pb, v2)]
      (fun q => !(decide (q = pa) || decide (q = pb))) := by
  intro q
  by_cases hqa : q = pa
  · subst hqa
    exact ⟨fun hk => by simp at hk, fun _ => ⟨v1, by simp [lookupM], h1⟩⟩
  · by_cases hqb : q = pb
    · subst hqb
      refine ⟨fun hk => by simp at hk, fun _ => ?_⟩
      exact ⟨v2, by simp [lookupM, (Ne.symm hqa : pa ≠ q)], h2⟩
    · constructor
      · intro _
        left
        simp [lookupM, (Ne.symm hqa : pa ≠ q), (Ne.symm hqb : pb ≠ q)]
      · intro hk
        simp [hqa, hqb] at hk

theorem mkVariant_tparams_first (M : Template) (mid : Nat) (pa pb : PName)
    (hp : M.tparams = [pa, pb]) (hab : pa ≠ pb)
    (hinv : dedupF (fieldsFrees M.fields) = [pa, pb]) :
    (mkVariant M mid [.leaf .int, .pvar pb]).tparams = [pb] := by
  simp only [mkVariant, hp, List.zip_cons_cons, List.zip_nil_left]
  rw [fieldsFrees_map_subst pa (.leaf .int) [(pb, .pvar pb)] _
    (erasesTo_first pa pb (.leaf .int) rfl) M.fields]
  rw [dedupF_filter, hinv]
  simp [(Ne.symm hab : pb ≠ pa)]

theorem mkVariant_tparams_both (M : Template) (mid : Nat) (pa pb : PName)
    (hp : M.tparams = [pa, pb])
    (hinv : dedupF (fieldsFrees M.fields) = [pa, pb]) :
    (mkVariant M mid [.leaf .int, .leaf .str]).tparams = [] := by
  simp only [mkVariant, hp, List.zip_cons_cons, List.zip_nil_left]
  rw [fieldsFrees_map_subst pa (.leaf .int) [(pb, .leaf .str)] _
    (erasesTo_both pa pb (.leaf .int) (.leaf .str) rfl rfl) M.fields]
  rw [dedupF_filter, hinv]
  simp

end PydGen


namespace PydGen

/-- Claim C4.  Partial application composes: for a template named `Model`
declared over two distinct parameters that are exactly the (deduplicated)
free parameters of its fields, parametrizing with `(int, Param B)` yields a
partial variant whose declared-parameter list is exactly `(B,)`; further
parametrizing that variant with `(str,)` yields a concrete variant with
display name `Model[int, str]`, and parametrizing the original template
directly with `(int, str)` returns that very variant (the same stored
object), because the partial application re-resolves through its recorded
origin to the same cache key. -/
theorem partial_parametrization_composes (s : GState) (mid : Nat) (M : Template)
    (pa pb : PName) (hM : s.templates[mid]? = some M) (ho : M.origin = none)
    (hp : M.tparams = [pa, pb]) (hab : pa ≠ pb)
    (hinv : dedupF (fieldsFrees M.fields) = [pa, pb]) (hname : M.name = "Model")
    (hc1 : lookupCache s.cache ⟨.early, mid, [.leaf .int, .pvar pb]⟩ = none)
    (hc2 : lookupCache s.cache ⟨.early, mid, [.leaf .int, .leaf .str]⟩ = none) :
    ∃ pv cv : Nat, ∃ s1 s2 : GState, ∃ V C : Template,
      parametrize s mid [.leaf .int, .pvar pb] = .ok (pv, s1)
      ∧ s1.templates[pv]? = some V
      ∧ V.tparams = [pb]
      ∧ parametrize s1 pv [.leaf .str] = .ok (cv, s2)
      ∧ s2.templates[cv]? = some C
      ∧ C.name = "Model[int, str]"
      ∧ C.tparams = []
      ∧ parametrize s2 mid [.leaf .int, .leaf .str] = .ok (cv, s2) := by
  have hmid : mid < s.templates.length := (List.getElem?_eq_some.mp hM).1
  have hg1 : M.tparams.isEmpty = false := by rw [hp]; rfl
  have ha1 : ¬ M.tparams.length < 2 := by rw [hp]; simp
  have hVt : (mkVariant M mid [.leaf .int, .pvar pb]).tparams = [pb] :=
    mkVariant_tparams_first M mid pa pb hp hab hinv
  have e1 := parametrize_creation s mid M [.leaf .int, .pvar pb] [.leaf .int, .pvar pb]
    hM hg1 (by simpa using ha1) (by rw [hp]; simp) ho rfl rfl hc1
  have e2 := parametrize_origin_creation
    ⟨s.templates ++ [mkVariant M mid [.leaf .int, .pvar pb]],
     (⟨.early, mid, [.leaf .int, .pvar pb]⟩, s.templates.length)
       :: (⟨.late, mid, [.leaf .int, .pvar pb]⟩, s.templates.length) :: s.cache⟩
    s.templates.length (mkVariant M mid [.leaf .int, .pvar pb]) [.leaf .str]
    mid [.leaf .int, .pvar pb] M [.leaf .int, .leaf .str] [.leaf .int, .leaf .str]
    (getElem?_append_len _ _)
    (by rw [hVt]; rfl)
    (by rw [hVt]; simp)
    (by rw [hVt]; simp)
    rfl
    ((List.getElem?_append_left hmid).trans hM)
    (by rw [hVt]
        simp [replaceTypes, replaceTypesGo, lookupM, List.zip])
    rfl rfl
    (by simp only [lookupCache]
        rw [if_neg (by simp), if_neg (by simp)]
        exact hc2)
  have e3 := parametrize_cache_hit
    ⟨(s.templates ++ [mkVariant M mid [.leaf .int, .pvar pb]])
        ++ [mkVariant M mid [.leaf .int, .leaf .str]],
     (⟨.early, mid, [.leaf .int, .leaf .str]⟩,
        (s.templates ++ [mkVariant M mid [.leaf .int, .pvar pb]]).length)
       :: (⟨.late, mid, [.leaf .int, .leaf .str]⟩,
        (s.templates ++ [mkVariant M mid [.leaf .int, .pvar pb]]).length)
       :: (⟨.early, mid, [.leaf .int, .pvar pb]⟩, s.templates.length)
       :: (⟨.late, mid, [.leaf .int, .pvar pb]⟩, s.templates.length) :: s.cache⟩
    mid M [.leaf .int, .leaf .str] [.leaf .int, .leaf .str]
    (s.templates ++ [mkVariant M mid [.leaf .int, .pvar pb]]).length
    ((List.getElem?_append_left (by simpa using Nat.lt_succ_of_lt hmid)).trans
      ((List.getElem?_append_left hmid).trans hM))
    hg1 (by simpa using ha1) (by rw [hp]; simp) ho rfl rfl
    (lookupCache_head _ _ _)
  exact ⟨s.templates.length,
    (s.templates ++ [mkVariant M mid [.leaf .int, .pvar pb]]).length, _, _,
    mkVariant M mid [.leaf .int, .pvar pb], mkVariant M mid [.leaf .int, .leaf .str],
    e1, getElem?_append_len _ _, hVt, e2, getElem?_append_len _ _,
    (by simp only [mkVariant, hname, displayName]; rfl),
    mkVariant_tparams_both M mid pa pb hp hinv, e3⟩

end PydGen

namespace PydGen

/-- The two-parameter template of the partial-specification tests. -/
def modelAB : Template :=
  ⟨"Model", ["AT", "BT"], [("a", .pvar "AT"), ("b", .pvar "BT")], none⟩

def stateAB : GState := ⟨[modelAB], []⟩

/-- Witness for C4: on the concrete two-parameter template,
`Model[int, BT]` declares exactly `(BT,)`, and `Model[int, BT][str]` is the
same stored variant as `Model[int, str]`, named accordingly. -/
theorem partial_parametrization_composes_witness :
    ∃ pv cv : Nat, ∃ s1 s2 : GState, ∃ V C : Template,
      parametrize stateAB 0 [.leaf .int, .pvar "BT"] = .ok (pv, s1)
      ∧ s1.templates[pv]? = some V
      ∧ V.tparams = ["BT"]
      ∧ parametrize s1 pv [.leaf .str] = .ok (cv, s2)
      ∧ s2.templates[cv]? = some C
      ∧ C.name = "Model[int, str]"
      ∧ C.tparams = []
      ∧ parametrize s2 0 [.leaf .int, .leaf .str] = .ok (cv, s2) :=
  partial_parametrization_composes stateAB 0 modelAB "AT" "BT"
    rfl rfl rfl (by decide) rfl rfl rfl rfl

end PydGen

namespace PydGen

/-- Claim C8, counterexample.  The claim says an absent introspection
mechanism (`sys._getframe` deleted) makes the declaration-site resolver fail
with the frame-introspection error; on the behavior pinned by the
test-suite it instead returns `(none, false)` and raises nothing. -/
theorem caller_frame_no_introspection_counterexample :
    get_caller_frame_info .noIntrospection = .ok (none, false)
    ∧ get_caller_frame_info .noIntrospection ≠ .error .frameIntrospection :=
  ⟨rfl, fun h => Except.noConfusion h⟩

/-- Claim C8, amended.  The declaration-site resolver returns
`(none, false)` when the host runtime has no call-stack introspection
mechanism at all (the degraded no-op mode), fails with the usage error when
there is no enclosing function frame, and otherwise reports the caller's
module attribution and whether the call sits directly at module scope. -/
theorem get_caller_frame_info_spec :
    get_caller_frame_info .noIntrospection = .ok (none, false)
    ∧ get_caller_frame_info .noEnclosingFrame = .error .usageError
    ∧ ∀ (n : Option String) (sc : Bool), get_caller_frame_info (.frame n sc) = .ok (n, sc) :=
  ⟨rfl, rfl, fun _ _ => rfl⟩

end PydGen

namespace PydSchema

/-- Claim C9.  The ref-unpacking wrapper hands the generation function the
resolved (concrete) form of the inner handler's schema; when the original
was an indirection and the function returns a distinct new schema object,
the wrapper's overall result is the original (possibly `$ref`) node, the
resolved target now carries the new schema's content, and the indirection
node itself is untouched — the indirection is preserved while its target
carries the mutation. -/
theorem wrapper_ref_unpacking (resolve : Nat → Nat) (orig : Nat)
    (fn : Nat → Heap → Nat × Heap) (heap : Heap)
    (hind : resolve orig ≠ orig)
    (hnew : (fn (resolve orig) heap).1 ≠ resolve orig) :
    (wrappedFn resolve orig fn heap).1 = orig
    ∧ (wrappedFn resolve orig fn heap).2 (resolve orig)
        = (fn (resolve orig) heap).2 ((fn (resolve orig) heap).1)
    ∧ (wrappedFn resolve orig fn heap).2 orig
        = (fn (resolve orig) heap).2 orig := by
  simp only [wrappedFn, update_schema]
  rw [if_pos ⟨hind, hnew⟩]
  refine ⟨rfl, ?_, ?_⟩
  · exact Function.update_same _ _ _
  · exact Function.update_noteq (Ne.symm hind) _ _

/-- A concrete indirection structure: object 0 is a `$ref` node resolving to
object 1; every other object resolves to itself. -/
def resolveC : Nat → Nat := fun n => if n = 0 then 1 else n

def heapC : Heap := fun _ => []

def fnC : Nat → Heap → Nat × Heap := fun _ h => (2, h)

/-- Witness for C9: with the `$ref` node 0 resolving to node 1 and a
generation function returning the fresh node 2, the wrapper returns node 0,
node 1 carries node 2's content, and node 0 is untouched. -/
theorem wrapper_ref_unpacking_witness :
    (wrappedFn resolveC 0 fnC heapC).1 = 0
    ∧ (wrappedFn resolveC 0 fnC heapC).2 (resolveC 0)
        = (fnC (resolveC 0) heapC).2 ((fnC (resolveC 0) heapC).1)
    ∧ (wrappedFn resolveC 0 fnC heapC).2 0 = (fnC (resolveC 0) heapC).2 0 :=
  wrapper_ref_unpacking resolveC 0 fnC heapC (by decide) (by decide)

/-- Claim C10.  `update_schema` is the identity on the heap except in
exactly one situation: it passes the schema through when the handler was
never called; whenever the handler was called it returns the recorded
original (so a fresh schema returned for a non-`$ref` original is silently
discarded); it mutates nothing when the original resolves to itself or when
the returned schema is the resolved object itself; and only when the
original was an indirection and the returned schema is distinct from its
resolved form does it overwrite the resolved object's content in place. -/
theorem update_schema_effects (resolve : Nat → Nat) (heap : Heap) (schema : Nat) :
    update_schema resolve heap none schema = (schema, heap)
    ∧ (∀ orig : Nat, (update_schema resolve heap (some orig) schema).1 = orig)
    ∧ (∀ orig : Nat, resolve orig = orig →
        update_schema resolve heap (some orig) schema = (orig, heap))
    ∧ (∀ orig : Nat, schema = resolve orig →
        update_schema resolve heap (some orig) schema = (orig, heap))
    ∧ (∀ orig : Nat, resolve orig ≠ orig → schema ≠ resolve orig →
        update_schema resolve heap (some orig) schema
          = (orig, Function.update heap (resolve orig) (heap schema))) := by
  refine ⟨rfl, ?_, ?_, ?_, ?_⟩
  · intro orig
    simp only [update_schema]
    by_cases hc : resolve orig ≠ orig ∧ schema ≠ resolve orig
    · rw [if_pos hc]
    · rw [if_neg hc]
  · intro orig hro
    simp only [update_schema]
    rw [if_neg (fun hc => hc.1 hro)]
  · intro orig hs
    simp only [update_schema]
    rw [if_neg (fun hc => hc.2 hs)]
  · intro orig h1 h2
    simp only [update_schema]
    rw [if_pos ⟨h1, h2⟩]

/-- Witness for C10: on the concrete indirection structure, the no-call
case passes through, a non-ref original discards the fresh schema 5, a
returned-resolved-object case mutates nothing, and the indirection case
writes node 5's content into node 1 while returning node 0. -/
theorem update_schema_effects_witness :
    update_schema resolveC heapC none 5 = (5, heapC)
    ∧ (update_schema resolveC heapC (some 0) 5).1 = 0
    ∧ update_schema resolveC heapC (some 3) 5 = (3, heapC)
    ∧ update_schema resolveC heapC (some 0) 1 = (0, heapC)
    ∧ update_schema resolveC heapC (some 0) 5
        = (0, Function.update heapC (resolveC 0) (heapC 5)) :=
  ⟨(update_schema_effects resolveC heapC 5).1,
   (update_schema_effects resolveC heapC 5).2.1 0,
   (update_schema_effects resolveC heapC 5).2.2.1 3 (by decide),
   (update_schema_effects resolveC heapC 1).2.2.2.1 0 (by decide),
   (update_schema_effects resolveC heapC 5).2.2.2.2 0 (by decide) (by decide)⟩

end PydSchema
